import Mathlib

/-!
Verification of the cryptographic utility module `backend/src/utils/crypto.ts`.

A shallow embedding of the module's five operations — `generateKeyPair`,
`encryptAsymmetric`, `decryptAsymmetric`, `encryptSymmetric`,
`decryptSymmetric` — together with the library functions they call:

* `tweetnacl-util`'s `encodeBase64` / `decodeBase64` (base64 with the
  validation regex the library applies before `atob`) and `decodeUTF8` /
  `encodeUTF8` (UTF-8 text/byte conversion, where `encodeUTF8` on invalid
  UTF-8 throws a `URIError`, because it is implemented with
  `decodeURIComponent(escape(...))`);
* `tweetnacl`'s `nacl.box` / `nacl.box.open` / `nacl.box.keyPair`, embedded
  structurally: length checks, the `tag ++ body` secretbox wire format, tag
  verification and the XOR stream layer are embedded exactly, while the
  elliptic-curve and cipher kernels (`crypto_scalarmult_base`,
  `crypto_box_beforenm`, `crypto_stream`, `crypto_onetimeauth`), which the
  spec excludes as trusted external primitives, are parameters of a `BoxPrim`
  structure carrying the algebraic facts they provide (output lengths, byte
  ranges, and commutativity of the Diffie-Hellman shared secret).

Byte sequences and JavaScript strings are `List Nat` (bytes `< 256`,
respectively Unicode code points / character codes).  Randomness is passed
explicitly: every operation that consumes entropy takes the random source's
output as a `List Nat` argument and draws a prefix of it, mirroring
`nacl.randomBytes`.  JavaScript exceptions become `Except JsError`.
-/

/-- The failure outcomes observable from the module.  The first three
constructors embed the exceptions the JavaScript code actually throws
(`TypeError`, `Error`, `URIError`, with their messages); the last four embed
the typed error taxonomy of the specification (`AuthenticationError`,
`KeyFormatError`, `EncodingError`, `EntropyError`), which has no counterpart
anywhere in `crypto.ts` and is produced only by the spec-modelled `aes-gcm`
module. -/
inductive JsError where
  | jsTypeError (msg : String)
  | jsError (msg : String)
  | jsURIError (msg : String)
  | authenticationError
  | keyFormatError
  | encodingError
  | entropyError
  deriving DecidableEq, Repr

/-! ## Base64 (tweetnacl-util)

`util.encodeBase64` is `btoa` over the byte string; `util.decodeBase64`
first validates the input against
`^(?:[A-Za-z0-9+/]{2}[A-Za-z0-9+/]{2})*(?:[A-Za-z0-9+/]{2}==|[A-Za-z0-9+/]{3}=)?$`
and throws `TypeError('invalid encoding')` on mismatch, then decodes with
`atob`.  `decodeB64Core` fuses the validation and the decode: it returns
`none` exactly when the regex rejects, and otherwise the bytes `atob`
produces (padding bits are discarded, as `atob` discards them). -/

/-- Character code of the base64 digit for a 6-bit value (`btoa` alphabet). -/
def b64Char (n : Nat) : Nat :=
  if n < 26 then 65 + n
  else if n < 52 then 97 + (n - 26)
  else if n < 62 then 48 + (n - 52)
  else if n = 62 then 43
  else 47

/-- The 6-bit value of a base64 digit character code; `none` off the alphabet. -/
def b64Val (c : Nat) : Option Nat :=
  if 65 ≤ c ∧ c ≤ 90 then some (c - 65)
  else if 97 ≤ c ∧ c ≤ 122 then some (c - 97 + 26)
  else if 48 ≤ c ∧ c ≤ 57 then some (c - 48 + 52)
  else if c = 43 then some 62
  else if c = 47 then some 63
  else none

/-- Embedding of `util.encodeBase64`: bytes to base64 character codes, three bytes per
four digits, `=` (code 61) padding on a final group of one or two bytes. -/
def encodeBase64 : List Nat → List Nat
  | [] => []
  | [a] => [b64Char (a / 4), b64Char (a % 4 * 16), 61, 61]
  | [a, b] => [b64Char (a / 4), b64Char (a % 4 * 16 + b / 16), b64Char (b % 16 * 4), 61]
  | a :: b :: c :: rest =>
      b64Char (a / 4) :: b64Char (a % 4 * 16 + b / 16) ::
      b64Char (b % 16 * 4 + c / 64) :: b64Char (c % 64) :: encodeBase64 rest

/-- Validation-regex-and-`atob` of `util.decodeBase64`, fused: groups of four
digits, padding allowed only in the final group, `none` on any string the
library's regex rejects. -/
def decodeB64Core : List Nat → Option (List Nat)
  | [] => some []
  | c1 :: c2 :: c3 :: c4 :: rest =>
    match b64Val c1, b64Val c2 with
    | some v1, some v2 =>
      if c3 = 61 then
        if c4 = 61 ∧ rest = [] then some [v1 * 4 + v2 / 16] else none
      else
        match b64Val c3 with
        | some v3 =>
          if c4 = 61 then
            if rest = [] then some [v1 * 4 + v2 / 16, v2 % 16 * 16 + v3 / 4] else none
          else
            match b64Val c4 with
            | some v4 =>
              match decodeB64Core rest with
              | some t => some ((v1 * 4 + v2 / 16) :: (v2 % 16 * 16 + v3 / 4) ::
                                (v3 % 4 * 64 + v4) :: t)
              | none => none
            | none => none
        | none => none
    | _, _ => none
  | _ => none

/-- Embedding of `util.decodeBase64`: throws `TypeError('invalid encoding')` when the
validation regex rejects. -/
def decodeBase64 (s : List Nat) : Except JsError (List Nat) :=
  match decodeB64Core s with
  | some bs => .ok bs
  | none => .error (.jsTypeError "invalid encoding")

/-! ## Hexadecimal (used by the symmetric side for keys and outputs) -/

/-- The 4-bit value of a hex digit character code (`0-9`, `a-f`, `A-F`). -/
def hexVal (c : Nat) : Option Nat :=
  if 48 ≤ c ∧ c ≤ 57 then some (c - 48)
  else if 97 ≤ c ∧ c ≤ 102 then some (c - 97 + 10)
  else if 65 ≤ c ∧ c ≤ 70 then some (c - 65 + 10)
  else none

/-- Lowercase hex digit character code of a 4-bit value. -/
def hexDigit (n : Nat) : Nat := if n < 10 then 48 + n else 97 + (n - 10)

/-- Bytes to lowercase hex character codes, two digits per byte. -/
def encodeHex : List Nat → List Nat
  | [] => []
  | b :: rest => hexDigit (b / 16) :: hexDigit (b % 16) :: encodeHex rest

/-- Hex character codes to bytes; `none` on odd length or a non-hex digit. -/
def decodeHex : List Nat → Option (List Nat)
  | [] => some []
  | c1 :: c2 :: rest =>
    match hexVal c1, hexVal c2 with
    | some h, some l =>
      match decodeHex rest with
      | some t => some ((h * 16 + l) :: t)
      | none => none
    | _, _ => none
  | _ => none

/-! ## UTF-8 (tweetnacl-util `decodeUTF8` / `encodeUTF8`)

`decodeUTF8` is `unescape(encodeURIComponent(s))` read as bytes: the UTF-8
encoding of the string.  `encodeUTF8` is `decodeURIComponent(escape(bytes))`:
a strict UTF-8 decode that throws `URIError('URI malformed')` on any byte
sequence that is not the shortest-form UTF-8 encoding of a sequence of
Unicode scalar values (no overlong forms, no surrogates, nothing above
U+10FFFF). -/

/-- A Unicode scalar value: what a well-formed JavaScript string's code
points range over (below `0x110000` and outside the surrogate block). -/
def ValidCp (c : Nat) : Prop := c < 1114112 ∧ (c < 55296 ∨ 57343 < c)

instance (c : Nat) : Decidable (ValidCp c) := by
  unfold ValidCp; exact inferInstance

/-- Shortest-form UTF-8 encoding of one code point (1–4 bytes). -/
def utf8EncodeCp (c : Nat) : List Nat :=
  if c < 128 then [c]
  else if c < 2048 then [192 + c / 64, 128 + c % 64]
  else if c < 65536 then [224 + c / 4096, 128 + c / 64 % 64, 128 + c % 64]
  else [240 + c / 262144, 128 + c / 4096 % 64, 128 + c / 64 % 64, 128 + c % 64]

/-- Embedding of `util.decodeUTF8`: code points of the plaintext string to UTF-8 bytes. -/
def utf8Encode (cps : List Nat) : List Nat := cps.flatMap utf8EncodeCp

/-- One step of the strict UTF-8 decode: read a single encoded code point
off the front of the bytes and return it with the unconsumed tail, or
`none` on a malformed, overlong, surrogate, or out-of-range sequence (the
sequences on which `decodeURIComponent` throws `URIError`). -/
def utf8DecodeStep : List Nat → Option (Nat × List Nat)
  | [] => none
  | b1 :: t1 =>
    if b1 < 128 then some (b1, t1)
    else if 192 ≤ b1 ∧ b1 < 224 then
      match t1 with
      | b2 :: t2 =>
        if 128 ≤ b2 ∧ b2 < 192 ∧ 128 ≤ (b1 - 192) * 64 + (b2 - 128) then
          some ((b1 - 192) * 64 + (b2 - 128), t2)
        else none
      | [] => none
    else if 224 ≤ b1 ∧ b1 < 240 then
      match t1 with
      | b2 :: b3 :: t3 =>
        if 128 ≤ b2 ∧ b2 < 192 ∧ 128 ≤ b3 ∧ b3 < 192 ∧
            2048 ≤ (b1 - 224) * 4096 + (b2 - 128) * 64 + (b3 - 128) ∧
            ((b1 - 224) * 4096 + (b2 - 128) * 64 + (b3 - 128) < 55296 ∨
             57343 < (b1 - 224) * 4096 + (b2 - 128) * 64 + (b3 - 128)) then
          some ((b1 - 224) * 4096 + (b2 - 128) * 64 + (b3 - 128), t3)
        else none
      | _ => none
    else if 240 ≤ b1 ∧ b1 < 248 then
      match t1 with
      | b2 :: b3 :: b4 :: t4 =>
        if 128 ≤ b2 ∧ b2 < 192 ∧ 128 ≤ b3 ∧ b3 < 192 ∧ 128 ≤ b4 ∧ b4 < 192 ∧
            65536 ≤ (b1 - 240) * 262144 + (b2 - 128) * 4096 + (b3 - 128) * 64 + (b4 - 128) ∧
            (b1 - 240) * 262144 + (b2 - 128) * 4096 + (b3 - 128) * 64 + (b4 - 128) < 1114112 then
          some ((b1 - 240) * 262144 + (b2 - 128) * 4096 + (b3 - 128) * 64 + (b4 - 128), t4)
        else none
      | _ => none
    else none

/-- Iterate `utf8DecodeStep` to the end of the bytes, `none` as soon as one
step rejects.  Each successful step consumes at least one byte, so a fuel
of the input length always suffices; fuel makes the recursion structural
and hence evaluable. -/
def utf8DecodeLoop : Nat → List Nat → Option (List Nat)
  | _, [] => some []
  | 0, _ :: _ => none
  | fuel + 1, b1 :: t1 =>
    match utf8DecodeStep (b1 :: t1) with
    | some (c, rest) => (utf8DecodeLoop fuel rest).map (fun cps => c :: cps)
    | none => none

/-- Strict UTF-8 decode of a whole byte sequence. -/
def utf8Decode (l : List Nat) : Option (List Nat) := utf8DecodeLoop l.length l

/-- Embedding of `util.encodeUTF8`: recovered bytes to a string; `URIError('URI
malformed')` exactly when the bytes are not valid strict UTF-8. -/
def encodeUTF8 (bs : List Nat) : Except JsError (List Nat) :=
  match utf8Decode bs with
  | some cps => .ok cps
  | none => .error (.jsURIError "URI malformed")

/-! ## Byte XOR (the stream-cipher layer of `crypto_secretbox`) -/

/-- XOR of two bytes as stored back into a `Uint8Array` cell. -/
def byteXor (a b : Nat) : Nat := (a ^^^ b) % 256

/-- Pointwise XOR of a message against a keystream (`crypto_stream_xor`). -/
def xorBytes (xs ys : List Nat) : List Nat := List.zipWith byteXor xs ys

/-! ## The tweetnacl `box` layer

`nacl.box(m, n, pk, sk)` is `nacl.secretbox(m, n, nacl.box.before(pk, sk))`
and `nacl.box.open` is `nacl.secretbox.open` over the same shared key.
`nacl.box.before` rejects keys whose length is not 32 (`Error('bad public
key size')` / `Error('bad secret key size')`); `nacl.secretbox` and its
`open` reject a key of length ≠ 32 (`'bad key size'`) and a nonce of length
≠ 24 (`'bad nonce size'`).  `crypto_secretbox` emits `tag ++ body`, where
the Poly1305 key is the first 32 keystream bytes, `body` is the message
XORed against the keystream from offset 32, and `tag` is the 16-byte
one-time authenticator of `body`; `open` recomputes the tag, compares, and
returns `null` (here `none`) on mismatch or on input shorter than 16 bytes. -/

/-- The cipher kernels of tweetnacl that the spec treats as trusted external
primitives, together with the facts the embedding relies on: output lengths,
byte ranges, and the Diffie-Hellman exchange law
`beforenm (scalarmultBase b) a = beforenm (scalarmultBase a) b`. -/
structure BoxPrim where
  scalarmultBase : List Nat → List Nat
  beforenm : List Nat → List Nat → List Nat
  stream : List Nat → List Nat → Nat → List Nat
  onetimeauth : List Nat → List Nat → List Nat
  smb_len : ∀ sk, (scalarmultBase sk).length = 32
  smb_bytes : ∀ sk, ∀ b ∈ scalarmultBase sk, b < 256
  beforenm_len : ∀ pk sk, (beforenm pk sk).length = 32
  dh_comm : ∀ a b, beforenm (scalarmultBase b) a = beforenm (scalarmultBase a) b
  stream_len : ∀ k n l, (stream k n l).length = l
  stream_bytes : ∀ k n l, ∀ b ∈ stream k n l, b < 256
  auth_len : ∀ k m, (onetimeauth k m).length = 16
  auth_bytes : ∀ k m, ∀ b ∈ onetimeauth k m, b < 256

/-- Embedding of `nacl.box.before`: the key-length checks, then the shared key. -/
def boxBefore (P : BoxPrim) (pk sk : List Nat) : Except JsError (List Nat) :=
  if pk.length ≠ 32 then .error (.jsError "bad public key size")
  else if sk.length ≠ 32 then .error (.jsError "bad secret key size")
  else .ok (P.beforenm pk sk)

/-- Embedding of `nacl.secretbox`: seal `m` under key `k` and nonce `n` as `tag ++ body`. -/
def secretbox (P : BoxPrim) (m n k : List Nat) : Except JsError (List Nat) :=
  if k.length ≠ 32 then .error (.jsError "bad key size")
  else if n.length ≠ 24 then .error (.jsError "bad nonce size")
  else
    let s := P.stream k n (32 + m.length)
    let body := xorBytes m (s.drop 32)
    .ok (P.onetimeauth (s.take 32) body ++ body)

/-- Embedding of `nacl.secretbox.open`: verify the tag and unseal; `none` stands for the
`null` tweetnacl returns when the ciphertext is shorter than a tag or the
authenticator does not match. -/
def secretboxOpen (P : BoxPrim) (c n k : List Nat) : Except JsError (Option (List Nat)) :=
  if k.length ≠ 32 then .error (.jsError "bad key size")
  else if n.length ≠ 24 then .error (.jsError "bad nonce size")
  else if c.length < 16 then .ok none
  else
    let s := P.stream k n (16 + c.length)
    let body := c.drop 16
    if c.take 16 = P.onetimeauth (s.take 32) body then .ok (some (xorBytes body (s.drop 32)))
    else .ok none

/-- Embedding of `nacl.box`. -/
def naclBox (P : BoxPrim) (m n pk sk : List Nat) : Except JsError (List Nat) :=
  match boxBefore P pk sk with
  | .error e => .error e
  | .ok k => secretbox P m n k

/-- Embedding of `nacl.box.open`. -/
def naclBoxOpen (P : BoxPrim) (c n pk sk : List Nat) : Except JsError (Option (List Nat)) :=
  match boxBefore P pk sk with
  | .error e => .error e
  | .ok k => secretboxOpen P c n k

/-! ## The module under verification: `backend/src/utils/crypto.ts` -/

/-- Return type of `generateKeyPair`: both keys as base64 character codes. -/
structure KeyPair where
  publicKey : List Nat
  privateKey : List Nat
  deriving DecidableEq, Repr

/-- Return type of `encryptAsymmetric`: ciphertext and nonce, base64. -/
structure AsymOut where
  ciphertext : List Nat
  nonce : List Nat
  deriving DecidableEq, Repr

/-- Embedding of `generateKeyPair`: `nacl.box.keyPair()` draws a 32-byte secret key from
the random source (passed here as `entropy`), derives the public key by
`crypto_scalarmult_base`, and both are returned base64-encoded. -/
def generateKeyPair (P : BoxPrim) (entropy : List Nat) : KeyPair :=
  let sk := entropy.take 32
  { publicKey := encodeBase64 (P.scalarmultBase sk),
    privateKey := encodeBase64 sk }

/-- Embedding of `encryptAsymmetric`: draw a 24-byte nonce from the random source (passed
here as `entropy`), UTF-8 encode the plaintext, base64-decode the two keys,
seal with `nacl.box`, and return ciphertext and nonce base64-encoded. -/
def encryptAsymmetric (P : BoxPrim) (entropy : List Nat)
    (plaintext publicKey privateKey : List Nat) : Except JsError AsymOut :=
  let nonce := entropy.take 24
  let m := utf8Encode plaintext
  match decodeBase64 publicKey with
  | .error e => .error e
  | .ok pk =>
    match decodeBase64 privateKey with
    | .error e => .error e
    | .ok sk =>
      match naclBox P m nonce pk sk with
      | .error e => .error e
      | .ok c => .ok { ciphertext := encodeBase64 c, nonce := encodeBase64 nonce }

/-- Embedding of `decryptAsymmetric`: base64-decode the four inputs, `nacl.box.open`, and
`util.encodeUTF8` the result.  When the box does not open, `nacl.box.open`
returns `null` and `encodeUTF8(null)` dereferences `null.length`: the call
throws a `TypeError`, embedded as `jsTypeError "cannot read length of null"`. -/
def decryptAsymmetric (P : BoxPrim)
    (ciphertext nonce publicKey privateKey : List Nat) : Except JsError (List Nat) :=
  match decodeBase64 ciphertext with
  | .error e => .error e
  | .ok c =>
    match decodeBase64 nonce with
    | .error e => .error e
    | .ok n =>
      match decodeBase64 publicKey with
      | .error e => .error e
      | .ok pk =>
        match decodeBase64 privateKey with
        | .error e => .error e
        | .ok sk =>
          match naclBoxOpen P c n pk sk with
          | .error e => .error e
          | .ok none => .error (.jsTypeError "cannot read length of null")
          | .ok (some m) => encodeUTF8 m

/-! ## The spec-modelled `aes-gcm` module and the symmetric operations

`crypto.ts` imports `AesGCM` from `./aes-gcm`, a file of this repository
that is not among the sources; only its call sites are visible.  Per the
spec it is an AEAD block-cipher wrapper.  The cipher kernel (keystream and
tag) is a parameter, as for the box side. -/

/-- The AEAD cipher kernel behind the spec-modelled `aes-gcm` module:
IV and key sizes, keystream, and tag, with lengths and byte ranges. -/
structure AeadPrim where
  ivLen : Nat
  keyLen : Nat
  keystream : List Nat → List Nat → Nat → List Nat
  tagOf : List Nat → List Nat → List Nat → List Nat
  keystream_len : ∀ k iv l, (keystream k iv l).length = l
  keystream_bytes : ∀ k iv l, ∀ b ∈ keystream k iv l, b < 256
  tagOf_bytes : ∀ k iv c, ∀ b ∈ tagOf k iv c, b < 256

/-- Return type of `AesGCM.encrypt` and `encryptSymmetric`. -/
structure SymOut where
  ciphertext : List Nat
  iv : List Nat
  tag : List Nat
  deriving DecidableEq, Repr

/-- Modelled from the spec: `AesGCM.encrypt` of the repository's `aes-gcm`
module, absent from the sources.  Per spec §4.4: decode the key from hex and
fail with `KeyFormatError` if malformed or of the wrong length; draw a fresh
IV from the random source (passed here as `entropy`); encrypt the UTF-8
plaintext bytes producing ciphertext and a separate tag; return the three
components, hex-encoded (the spec leaves the output encoding
implementation-defined but consistent). -/
def AesGCM.encrypt (A : AeadPrim) (entropy : List Nat)
    (plaintext key : List Nat) : Except JsError SymOut :=
  match decodeHex key with
  | none => .error .keyFormatError
  | some k =>
    if k.length ≠ A.keyLen then .error .keyFormatError
    else
      let iv := entropy.take A.ivLen
      let m := utf8Encode plaintext
      let c := xorBytes m (A.keystream k iv m.length)
      .ok { ciphertext := encodeHex c, iv := encodeHex iv, tag := encodeHex (A.tagOf k iv c) }

/-- Modelled from the spec: `AesGCM.decrypt` of the repository's `aes-gcm`
module, absent from the sources.  Per spec §4.4: decode all inputs, failing
with format errors on malformed encodings or wrong component lengths;
verify the tag against (key, IV, ciphertext) and fail with
`AuthenticationError` on mismatch; decrypt and decode the recovered bytes
as UTF-8, failing with `EncodingError` if invalid. -/
def AesGCM.decrypt (A : AeadPrim)
    (ciphertext iv tag key : List Nat) : Except JsError (List Nat) :=
  match decodeHex ciphertext, decodeHex iv, decodeHex tag, decodeHex key with
  | some c, some ivb, some tg, some k =>
    if k.length ≠ A.keyLen then .error .keyFormatError
    else if ivb.length ≠ A.ivLen then .error .keyFormatError
    else if tg ≠ A.tagOf k ivb c then .error .authenticationError
    else
      match utf8Decode (xorBytes c (A.keystream k ivb c.length)) with
      | some cps => .ok cps
      | none => .error .encodingError
  | _, _, _, _ => .error .encodingError

/-- Embedding of `encryptSymmetric`: calls `AesGCM.encrypt`, destructures
`{ ciphertext, iv, tag }` from its result, and returns them repacked. -/
def encryptSymmetric (A : AeadPrim) (entropy : List Nat)
    (plaintext key : List Nat) : Except JsError SymOut :=
  match AesGCM.encrypt A entropy plaintext key with
  | .error e => .error e
  | .ok obj => .ok { ciphertext := obj.ciphertext, iv := obj.iv, tag := obj.tag }

/-- Embedding of `decryptSymmetric`: returns `AesGCM.decrypt(ciphertext, iv, tag, key)`
directly. -/
def decryptSymmetric (A : AeadPrim)
    (ciphertext iv tag key : List Nat) : Except JsError (List Nat) :=
  AesGCM.decrypt A ciphertext iv tag key

/-! ## Concrete kernel instances

Small computable instances of `BoxPrim` and `AeadPrim`, used to evaluate
the theorems on explicit inputs.  The Diffie-Hellman layer of `toyBox` is
exponentiation of the base 3 modulo the prime 251, which satisfies the
exchange law; keystream and authenticator are simple arithmetic byte
generators satisfying the length and range facts `BoxPrim` demands. -/

/-- A concrete `BoxPrim` instance for evaluating theorems. -/
def toyBox : BoxPrim where
  scalarmultBase sk := (3 ^ sk.sum % 251) :: List.replicate 31 0
  beforenm pk sk := (pk.headD 0 ^ sk.sum % 251) :: List.replicate 31 0
  stream k n l := (List.range l).map (fun i => (k.sum + n.sum + i) % 256)
  onetimeauth k m := (List.range 16).map (fun i => (k.sum + 2 * m.sum + m.length + i) % 256)
  smb_len sk := by simp
  smb_bytes := by
    intro sk b hb
    rcases List.mem_cons.mp hb with rfl | h2
    · have := Nat.mod_lt (3 ^ sk.sum) (show 0 < 251 by omega); omega
    · have := List.eq_of_mem_replicate h2; omega
  beforenm_len pk sk := by simp
  dh_comm a b := by
    simp only [List.headD_cons]
    rw [← Nat.pow_mod, ← Nat.pow_mod, ← pow_mul, ← pow_mul, Nat.mul_comm]
  stream_len k n l := by simp
  stream_bytes := by
    intro k n l b hb
    simp only [List.mem_map, List.mem_range] at hb
    obtain ⟨i, _, rfl⟩ := hb
    omega
  auth_len k m := by simp
  auth_bytes := by
    intro k m b hb
    simp only [List.mem_map, List.mem_range] at hb
    obtain ⟨i, _, rfl⟩ := hb
    omega

/-- A concrete `AeadPrim` instance for evaluating theorems: a 12-byte IV
and 32-byte key, with arithmetic keystream and tag generators. -/
def toyAead : AeadPrim where
  ivLen := 12
  keyLen := 32
  keystream k iv l := (List.range l).map (fun i => (k.sum + iv.sum + i) % 256)
  tagOf k iv c := (List.range 16).map (fun i => (k.sum + iv.sum + 2 * c.sum + c.length + i) % 256)
  keystream_len k iv l := by simp
  keystream_bytes := by
    intro k iv l b hb
    simp only [List.mem_map, List.mem_range] at hb
    obtain ⟨i, _, rfl⟩ := hb
    omega
  tagOf_bytes := by
    intro k iv c b hb
    simp only [List.mem_map, List.mem_range] at hb
    obtain ⟨i, _, rfl⟩ := hb
    omega

/-- A sealed box under `toyBox`, all-zero keys and nonce, whose body opens
to the single byte 255 — a byte sequence that is not valid UTF-8. -/
def invalidUtf8Box : List Nat :=
  let k := toyBox.beforenm (List.replicate 32 0) (List.replicate 32 0)
  let s := toyBox.stream k (List.replicate 24 0) 33
  let body := xorBytes [255] (s.drop 32)
  toyBox.onetimeauth (s.take 32) body ++ body

/-- The base64 encoding of 32 zero bytes: a syntactically valid key string
for either key argument. -/
def zeroKeyB64 : List Nat := encodeBase64 (List.replicate 32 0)

/-- Sixty-four hex zeros: a syntactically valid 32-byte symmetric key string. -/
def zeroKeyHex : List Nat := List.replicate 64 48

/-- The concrete output of `encryptAsymmetric` under `toyBox`, an all-zero
24-byte draw, plaintext "h", and all-zero keys. -/
def c5Out : AsymOut :=
  match encryptAsymmetric toyBox (List.replicate 24 0) [104] zeroKeyB64 zeroKeyB64 with
  | .ok r => r
  | .error _ => ⟨[], []⟩

/-- Output of `encryptAsymmetric` for the draw `1 :: 0²³`. -/
def c7Out1 : AsymOut :=
  match encryptAsymmetric toyBox (1 :: List.replicate 23 0) [104] zeroKeyB64 zeroKeyB64 with
  | .ok r => r
  | .error _ => ⟨[], []⟩

/-- Output of `encryptAsymmetric` for the draw `1²⁴`. -/
def c7Out2 : AsymOut :=
  match encryptAsymmetric toyBox (List.replicate 24 1) [104] zeroKeyB64 zeroKeyB64 with
  | .ok r => r
  | .error _ => ⟨[], []⟩

/-- Output of `encryptSymmetric` for the draw `1 :: 0²³`. -/
def c7Sym1 : SymOut :=
  match encryptSymmetric toyAead (1 :: List.replicate 23 0) [104] zeroKeyHex with
  | .ok r => r
  | .error _ => ⟨[], [], []⟩

/-- Output of `encryptSymmetric` for the draw `1²⁴`. -/
def c7Sym2 : SymOut :=
  match encryptSymmetric toyAead (List.replicate 24 1) [104] zeroKeyHex with
  | .ok r => r
  | .error _ => ⟨[], [], []⟩

/-- Decidable equality of `Except` results, so theorems can be evaluated on
concrete inputs. -/
instance {e a : Type} [DecidableEq e] [DecidableEq a] : DecidableEq (Except e a) := fun x y =>
  match x, y with
  | .ok v, .ok w =>
    if h : v = w then isTrue (by rw [h]) else isFalse (fun he => by cases he; exact h rfl)
  | .error v, .error w =>
    if h : v = w then isTrue (by rw [h]) else isFalse (fun he => by cases he; exact h rfl)
  | .ok _, .error _ => isFalse (fun he => by cases he)
  | .error _, .ok _ => isFalse (fun he => by cases he)

/-! ## Codec lemmas -/

theorem b64Val_b64Char : ∀ n < 64, b64Val (b64Char n) = some n := by decide

theorem b64Char_ne_pad : ∀ n < 64, b64Char n ≠ 61 := by decide

theorem decodeB64Core_encodeBase64 :
    ∀ bs : List Nat, (∀ b ∈ bs, b < 256) → decodeB64Core (encodeBase64 bs) = some bs := by
  intro bs
  induction bs using encodeBase64.induct with
  | case1 => intro _; rfl
  | case2 a =>
    intro h
    have ha : a < 256 := h a (by simp)
    have h1 : b64Val (b64Char (a / 4)) = some (a / 4) := b64Val_b64Char _ (by omega)
    have h2 : b64Val (b64Char (a % 4 * 16)) = some (a % 4 * 16) := b64Val_b64Char _ (by omega)
    simp [encodeBase64, decodeB64Core, h1, h2]
    omega
  | case3 a b =>
    intro h
    have ha : a < 256 := h a (by simp)
    have hb : b < 256 := h b (by simp)
    have h1 : b64Val (b64Char (a / 4)) = some (a / 4) := b64Val_b64Char _ (by omega)
    have h2 : b64Val (b64Char (a % 4 * 16 + b / 16)) = some (a % 4 * 16 + b / 16) :=
      b64Val_b64Char _ (by omega)
    have h3 : b64Val (b64Char (b % 16 * 4)) = some (b % 16 * 4) := b64Val_b64Char _ (by omega)
    have hne : b64Char (b % 16 * 4) ≠ 61 := b64Char_ne_pad _ (by omega)
    simp [encodeBase64, decodeB64Core, h1, h2, h3, hne]
    omega
  | case4 a b c rest ih =>
    intro h
    have ha : a < 256 := h a (by simp)
    have hb : b < 256 := h b (by simp)
    have hc : c < 256 := h c (by simp)
    have h1 : b64Val (b64Char (a / 4)) = some (a / 4) := b64Val_b64Char _ (by omega)
    have h2 : b64Val (b64Char (a % 4 * 16 + b / 16)) = some (a % 4 * 16 + b / 16) :=
      b64Val_b64Char _ (by omega)
    have h3 : b64Val (b64Char (b % 16 * 4 + c / 64)) = some (b % 16 * 4 + c / 64) :=
      b64Val_b64Char _ (by omega)
    have h4 : b64Val (b64Char (c % 64)) = some (c % 64) := b64Val_b64Char _ (by omega)
    have hne3 : b64Char (b % 16 * 4 + c / 64) ≠ 61 := b64Char_ne_pad _ (by omega)
    have hne4 : b64Char (c % 64) ≠ 61 := b64Char_ne_pad _ (by omega)
    have ht : decodeB64Core (encodeBase64 rest) = some rest :=
      ih (fun x hx => h x (by simp [hx]))
    simp [encodeBase64, decodeB64Core, h1, h2, h3, h4, hne3, hne4, ht]
    refine ⟨?_, ?_, ?_⟩ <;> omega

theorem decodeBase64_encodeBase64 (bs : List Nat) (h : ∀ b ∈ bs, b < 256) :
    decodeBase64 (encodeBase64 bs) = .ok bs := by
  unfold decodeBase64
  rw [decodeB64Core_encodeBase64 bs h]

theorem encodeBase64_injOn (xs ys : List Nat)
    (hx : ∀ b ∈ xs, b < 256) (hy : ∀ b ∈ ys, b < 256)
    (h : encodeBase64 xs = encodeBase64 ys) : xs = ys := by
  have h1 := decodeB64Core_encodeBase64 xs hx
  have h2 := decodeB64Core_encodeBase64 ys hy
  rw [h, h2] at h1
  exact (Option.some.injEq _ _ ▸ h1).symm

theorem hexVal_hexDigit : ∀ n < 16, hexVal (hexDigit n) = some n := by decide

theorem decodeHex_encodeHex :
    ∀ bs : List Nat, (∀ b ∈ bs, b < 256) → decodeHex (encodeHex bs) = some bs := by
  intro bs
  induction bs with
  | nil => intro _; rfl
  | cons b rest ih =>
    intro h
    have hb : b < 256 := h b (by simp)
    have h1 : hexVal (hexDigit (b / 16)) = some (b / 16) := hexVal_hexDigit _ (by omega)
    have h2 : hexVal (hexDigit (b % 16)) = some (b % 16) := hexVal_hexDigit _ (by omega)
    have ht : decodeHex (encodeHex rest) = some rest := ih (fun x hx => h x (by simp [hx]))
    simp [encodeHex, decodeHex, h1, h2, ht]
    omega

theorem encodeHex_injOn (xs ys : List Nat)
    (hx : ∀ b ∈ xs, b < 256) (hy : ∀ b ∈ ys, b < 256)
    (h : encodeHex xs = encodeHex ys) : xs = ys := by
  have h1 := decodeHex_encodeHex xs hx
  have h2 := decodeHex_encodeHex ys hy
  rw [h, h2] at h1
  exact (Option.some.injEq _ _ ▸ h1).symm

theorem utf8DecodeStep_length : ∀ (l : List Nat) (c : Nat) (rest : List Nat),
    utf8DecodeStep l = some (c, rest) → rest.length < l.length := by
  intro l c rest h
  cases l with
  | nil => exact absurd h (by simp [utf8DecodeStep])
  | cons b1 t1 =>
    simp only [utf8DecodeStep] at h
    repeat' split at h
    all_goals
      first
      | (injection h with h; injection h with h1 h2; subst h2;
         simp only [List.length_cons]; omega)
      | injection h

theorem utf8DecodeLoop_congr : ∀ (f1 f2 : Nat) (l : List Nat),
    l.length ≤ f1 → l.length ≤ f2 → utf8DecodeLoop f1 l = utf8DecodeLoop f2 l := by
  intro f1
  induction f1 with
  | zero =>
    intro f2 l h1 _
    have : l = [] := List.eq_nil_of_length_eq_zero (by omega)
    subst this
    cases f2 <;> rfl
  | succ n ih =>
    intro f2 l h1 h2
    cases l with
    | nil => cases f2 <;> rfl
    | cons b1 t1 =>
      cases f2 with
      | zero => simp at h2
      | succ m =>
        simp only [utf8DecodeLoop]
        cases hstep : utf8DecodeStep (b1 :: t1) with
        | none => rfl
        | some p =>
          obtain ⟨c, rest⟩ := p
          have hlt := utf8DecodeStep_length _ _ _ hstep
          simp only [List.length_cons] at h1 h2 hlt
          show Option.map (fun cps => c :: cps) (utf8DecodeLoop n rest) =
            Option.map (fun cps => c :: cps) (utf8DecodeLoop m rest)
          rw [ih m rest (by omega) (by omega)]

theorem utf8Decode_of_step {l : List Nat} {c : Nat} {rest : List Nat}
    (h : utf8DecodeStep l = some (c, rest)) :
    utf8Decode l = (utf8Decode rest).map (fun cps => c :: cps) := by
  cases l with
  | nil => exact absurd h (by simp [utf8DecodeStep])
  | cons b1 t1 =>
    have hlt := utf8DecodeStep_length _ _ _ h
    unfold utf8Decode
    simp only [List.length_cons, utf8DecodeLoop, h]
    rw [utf8DecodeLoop_congr t1.length rest.length rest (by simp at hlt; omega) (by omega)]

theorem utf8DecodeStep_encodeCp (c : Nat) (h : ValidCp c) (bs : List Nat) :
    utf8DecodeStep (utf8EncodeCp c ++ bs) = some (c, bs) := by
  obtain ⟨hmax, hsurr⟩ := h
  by_cases h1 : c < 128
  · simp only [utf8EncodeCp, if_pos h1, List.cons_append, List.nil_append, utf8DecodeStep]
  · by_cases h2 : c < 2048
    · simp only [utf8EncodeCp, if_neg h1, if_pos h2, List.cons_append, List.nil_append,
        utf8DecodeStep]
      rw [if_neg (by omega), if_pos (by omega), if_pos (by omega)]
      have e : (192 + c / 64 - 192) * 64 + (128 + c % 64 - 128) = c := by omega
      rw [e]
    · by_cases h3 : c < 65536
      · simp only [utf8EncodeCp, if_neg h1, if_neg h2, if_pos h3, List.cons_append,
          List.nil_append, utf8DecodeStep]
        rw [if_neg (by omega), if_neg (by omega), if_pos (by omega), if_pos (by omega)]
        have e : (224 + c / 4096 - 224) * 4096 + (128 + c / 64 % 64 - 128) * 64 +
            (128 + c % 64 - 128) = c := by omega
        rw [e]
      · simp only [utf8EncodeCp, if_neg h1, if_neg h2, if_neg h3, List.cons_append,
          List.nil_append, utf8DecodeStep]
        rw [if_neg (by omega), if_neg (by omega), if_neg (by omega), if_pos (by omega),
          if_pos (by omega)]
        have e : (240 + c / 262144 - 240) * 262144 + (128 + c / 4096 % 64 - 128) * 4096 +
            (128 + c / 64 % 64 - 128) * 64 + (128 + c % 64 - 128) = c := by omega
        rw [e]

theorem utf8Decode_utf8Encode :
    ∀ cps : List Nat, (∀ c ∈ cps, ValidCp c) → utf8Decode (utf8Encode cps) = some cps := by
  intro cps
  induction cps with
  | nil => intro _; simp [utf8Encode, utf8Decode, utf8DecodeLoop]
  | cons c rest ih =>
    intro h
    have hc : ValidCp c := h c (by simp)
    have hstep : utf8DecodeStep (utf8EncodeCp c ++ utf8Encode rest) =
        some (c, utf8Encode rest) := utf8DecodeStep_encodeCp c hc _
    have he : utf8Encode (c :: rest) = utf8EncodeCp c ++ utf8Encode rest := by
      simp [utf8Encode]
    rw [he, utf8Decode_of_step hstep, ih (fun x hx => h x (by simp [hx]))]
    rfl

theorem encodeUTF8_utf8Encode (cps : List Nat) (h : ∀ c ∈ cps, ValidCp c) :
    encodeUTF8 (utf8Encode cps) = .ok cps := by
  unfold encodeUTF8
  rw [utf8Decode_utf8Encode cps h]

theorem utf8EncodeCp_bytes (c : Nat) (h : ValidCp c) : ∀ b ∈ utf8EncodeCp c, b < 256 := by
  obtain ⟨hmax, _⟩ := h
  intro b hb
  unfold utf8EncodeCp at hb
  split at hb
  · simp at hb; omega
  · split at hb
    · simp at hb; rcases hb with rfl | rfl <;> omega
    · split at hb
      · simp at hb; rcases hb with rfl | rfl | rfl <;> omega
      · simp at hb; rcases hb with rfl | rfl | rfl | rfl <;> omega

theorem utf8Encode_bytes (cps : List Nat) (h : ∀ c ∈ cps, ValidCp c) :
    ∀ b ∈ utf8Encode cps, b < 256 := by
  intro b hb
  unfold utf8Encode at hb
  rw [List.mem_flatMap] at hb
  obtain ⟨c, hc, hbc⟩ := hb
  exact utf8EncodeCp_bytes c (h c hc) b hbc

/-! ## XOR lemmas -/

theorem byteXor_cancel (x y : Nat) (hx : x < 256) (hy : y < 256) :
    byteXor (byteXor x y) y = x := by
  unfold byteXor
  have hlt : x ^^^ y < 256 := by
    have h8 : (256 : Nat) = 2 ^ 8 := by norm_num
    rw [h8] at hx hy ⊢
    exact Nat.xor_lt_two_pow hx hy
  rw [Nat.mod_eq_of_lt hlt, Nat.xor_cancel_right, Nat.mod_eq_of_lt hx]

theorem xorBytes_lt : ∀ (xs ys : List Nat), ∀ b ∈ xorBytes xs ys, b < 256 := by
  intro xs
  induction xs with
  | nil => intro ys b hb; simp [xorBytes] at hb
  | cons x xs2 ih =>
    intro ys b hb
    cases ys with
    | nil => simp [xorBytes] at hb
    | cons y ys2 =>
      simp only [xorBytes, List.zipWith_cons_cons, List.mem_cons] at hb
      rcases hb with rfl | hb
      · exact Nat.mod_lt _ (by omega)
      · exact ih ys2 b hb

theorem length_xorBytes (xs ys : List Nat) :
    (xorBytes xs ys).length = min xs.length ys.length := by
  simp [xorBytes]

theorem xorBytes_cancel : ∀ (xs ys : List Nat), (∀ b ∈ xs, b < 256) → (∀ b ∈ ys, b < 256) →
    xs.length ≤ ys.length → xorBytes (xorBytes xs ys) ys = xs := by
  intro xs
  induction xs with
  | nil => intro ys _ _ _; rfl
  | cons x xs2 ih =>
    intro ys hx hy hl
    cases ys with
    | nil => simp at hl
    | cons y ys2 =>
      simp only [xorBytes, List.zipWith_cons_cons]
      have hx0 : x < 256 := hx x (by simp)
      have hy0 : y < 256 := hy y (by simp)
      rw [byteXor_cancel x y hx0 hy0]
      have ht : xorBytes (xorBytes xs2 ys2) ys2 = xs2 :=
        ih ys2 (fun b hb => hx b (by simp [hb])) (fun b hb => hy b (by simp [hb]))
          (by simpa using hl)
      simpa [xorBytes] using ht

/-! ## Secretbox and box layer lemmas -/

theorem secretbox_roundtrip (P : BoxPrim) (m n k : List Nat)
    (hk : k.length = 32) (hn : n.length = 24) (hm : ∀ b ∈ m, b < 256) :
    ∃ c, secretbox P m n k = .ok c ∧
      c.length = m.length + 16 ∧ (∀ b ∈ c, b < 256) ∧
      secretboxOpen P c n k = .ok (some m) := by
  have hs_len : (P.stream k n (32 + m.length)).length = 32 + m.length := P.stream_len k n _
  have hdrop_len : ((P.stream k n (32 + m.length)).drop 32).length = m.length := by
    rw [List.length_drop, hs_len]; omega
  have hbody_len : (xorBytes m ((P.stream k n (32 + m.length)).drop 32)).length = m.length := by
    rw [length_xorBytes, hdrop_len]; omega
  set s := P.stream k n (32 + m.length) with hs
  set body := xorBytes m (s.drop 32) with hbody
  set tg := P.onetimeauth (s.take 32) body with htg
  have htg_len : tg.length = 16 := P.auth_len _ _
  refine ⟨tg ++ body, ?_, ?_, ?_, ?_⟩
  · unfold secretbox
    rw [if_neg (by omega), if_neg (by omega)]
  · rw [List.length_append, htg_len, hbody_len]; omega
  · intro b hb
    rcases List.mem_append.mp hb with h1 | h1
    · exact P.auth_bytes _ _ b h1
    · exact xorBytes_lt _ _ b h1
  · unfold secretboxOpen
    rw [if_neg (by omega), if_neg (by omega),
      if_neg (show ¬((tg ++ body).length < 16) by rw [List.length_append, htg_len]; omega)]
    have hlen_eq : 16 + (tg ++ body).length = 32 + m.length := by
      rw [List.length_append, htg_len, hbody_len]; omega
    rw [hlen_eq]
    rw [show (tg ++ body).take 16 = tg by rw [← htg_len, List.take_left]]
    rw [show (tg ++ body).drop 16 = body by rw [← htg_len, List.drop_left]]
    rw [if_pos rfl]
    have : xorBytes body (s.drop 32) = m := by
      rw [hbody]
      exact xorBytes_cancel m (s.drop 32) hm (fun b hb => P.stream_bytes k n _ b
        (List.mem_of_mem_drop hb)) (by rw [hdrop_len])
    rw [this]

/-! ## Claim C1 — asymmetric round trip -/

/-- C1: for every UTF-8 plaintext `P` and valid key pairs `(A, B)` produced
by `generateKeyPair`, decrypting with `decryptAsymmetric` the ciphertext
and nonce produced by `encryptAsymmetric(P, B.publicKey, A.privateKey)`,
using `A.publicKey` as sender public key and `B.privateKey` as recipient
private key, returns exactly `P`.  Key pairs are generated from 32-byte
draws `eA`, `eB` of the random source, the encryption nonce from a 24-byte
draw `eE`. -/
theorem C1_asymmetric_roundtrip (P : BoxPrim) (eA eB eE plaintext : List Nat)
    (hA : ∀ b ∈ eA, b < 256) (hA32 : 32 ≤ eA.length)
    (hB : ∀ b ∈ eB, b < 256) (hB32 : 32 ≤ eB.length)
    (hE : ∀ b ∈ eE, b < 256) (hE24 : 24 ≤ eE.length)
    (hp : ∀ c ∈ plaintext, ValidCp c) :
    ∃ r, encryptAsymmetric P eE plaintext (generateKeyPair P eB).publicKey
        (generateKeyPair P eA).privateKey = .ok r ∧
      decryptAsymmetric P r.ciphertext r.nonce (generateKeyPair P eA).publicKey
        (generateKeyPair P eB).privateKey = .ok plaintext := by
  have hskA_len : (eA.take 32).length = 32 := by rw [List.length_take]; omega
  have hskB_len : (eB.take 32).length = 32 := by rw [List.length_take]; omega
  have hskA_bytes : ∀ b ∈ eA.take 32, b < 256 := fun b hb => hA b (List.take_subset _ _ hb)
  have hskB_bytes : ∀ b ∈ eB.take 32, b < 256 := fun b hb => hB b (List.take_subset _ _ hb)
  have hn_len : (eE.take 24).length = 24 := by rw [List.length_take]; omega
  have hn_bytes : ∀ b ∈ eE.take 24, b < 256 := fun b hb => hE b (List.take_subset _ _ hb)
  have hpkA_len := P.smb_len (eA.take 32)
  have hpkB_len := P.smb_len (eB.take 32)
  have hm_bytes := utf8Encode_bytes plaintext hp
  have hk_len := P.beforenm_len (P.scalarmultBase (eB.take 32)) (eA.take 32)
  obtain ⟨c, hsb, hclen, hcbytes, hsbo⟩ :=
    secretbox_roundtrip P (utf8Encode plaintext) (eE.take 24)
      (P.beforenm (P.scalarmultBase (eB.take 32)) (eA.take 32)) hk_len hn_len hm_bytes
  have hdecPkB : decodeBase64 (encodeBase64 (P.scalarmultBase (eB.take 32))) =
      .ok (P.scalarmultBase (eB.take 32)) :=
    decodeBase64_encodeBase64 _ (P.smb_bytes _)
  have hdecSkA : decodeBase64 (encodeBase64 (eA.take 32)) = .ok (eA.take 32) :=
    decodeBase64_encodeBase64 _ hskA_bytes
  have hdecPkA : decodeBase64 (encodeBase64 (P.scalarmultBase (eA.take 32))) =
      .ok (P.scalarmultBase (eA.take 32)) :=
    decodeBase64_encodeBase64 _ (P.smb_bytes _)
  have hdecSkB : decodeBase64 (encodeBase64 (eB.take 32)) = .ok (eB.take 32) :=
    decodeBase64_encodeBase64 _ hskB_bytes
  have hdecC : decodeBase64 (encodeBase64 c) = .ok c := decodeBase64_encodeBase64 _ hcbytes
  have hdecN : decodeBase64 (encodeBase64 (eE.take 24)) = .ok (eE.take 24) :=
    decodeBase64_encodeBase64 _ hn_bytes
  have hbefore1 : boxBefore P (P.scalarmultBase (eB.take 32)) (eA.take 32) =
      .ok (P.beforenm (P.scalarmultBase (eB.take 32)) (eA.take 32)) := by
    unfold boxBefore
    rw [if_neg (by omega), if_neg (by omega)]
  have hbox : naclBox P (utf8Encode plaintext) (eE.take 24)
      (P.scalarmultBase (eB.take 32)) (eA.take 32) = .ok c := by
    unfold naclBox
    rw [hbefore1]
    exact hsb
  have hbefore2 : boxBefore P (P.scalarmultBase (eA.take 32)) (eB.take 32) =
      .ok (P.beforenm (P.scalarmultBase (eA.take 32)) (eB.take 32)) := by
    unfold boxBefore
    rw [if_neg (by omega), if_neg (by omega)]
  have hopen : naclBoxOpen P c (eE.take 24)
      (P.scalarmultBase (eA.take 32)) (eB.take 32) = .ok (some (utf8Encode plaintext)) := by
    unfold naclBoxOpen
    rw [hbefore2, P.dh_comm (eB.take 32) (eA.take 32)]
    exact hsbo
  have hutf : encodeUTF8 (utf8Encode plaintext) = .ok plaintext :=
    encodeUTF8_utf8Encode plaintext hp
  refine ⟨⟨encodeBase64 c, encodeBase64 (eE.take 24)⟩, ?_, ?_⟩
  · simp only [encryptAsymmetric, generateKeyPair, hdecPkB, hdecSkA, hbox]
  · simp only [decryptAsymmetric, generateKeyPair, hdecC, hdecN, hdecPkA, hdecSkB, hopen, hutf]

/-! ## Claim C2 — symmetric round trip -/

/-- C2: for every UTF-8 plaintext and valid hex key of the cipher's key
size, `decryptSymmetric` applied to the `{ ciphertext, iv, tag }` returned
by `encryptSymmetric` together with the same key returns exactly the
plaintext.  The IV is drawn from the random source `entropy`. -/
theorem C2_symmetric_roundtrip (A : AeadPrim) (entropy plaintext key k : List Nat)
    (hE : ∀ b ∈ entropy, b < 256) (hElen : A.ivLen ≤ entropy.length)
    (hp : ∀ c ∈ plaintext, ValidCp c)
    (hkdec : decodeHex key = some k) (hklen : k.length = A.keyLen) :
    ∃ r, encryptSymmetric A entropy plaintext key = .ok r ∧
      decryptSymmetric A r.ciphertext r.iv r.tag key = .ok plaintext := by
  have hiv_len : (entropy.take A.ivLen).length = A.ivLen := by rw [List.length_take]; omega
  have hiv_bytes : ∀ b ∈ entropy.take A.ivLen, b < 256 :=
    fun b hb => hE b (List.take_subset _ _ hb)
  have hm_bytes := utf8Encode_bytes plaintext hp
  have hks_len := A.keystream_len k (entropy.take A.ivLen) (utf8Encode plaintext).length
  have hc_len : (xorBytes (utf8Encode plaintext)
      (A.keystream k (entropy.take A.ivLen) (utf8Encode plaintext).length)).length =
      (utf8Encode plaintext).length := by
    rw [length_xorBytes, hks_len]; omega
  have hc_bytes := xorBytes_lt (utf8Encode plaintext)
    (A.keystream k (entropy.take A.ivLen) (utf8Encode plaintext).length)
  have hdc := decodeHex_encodeHex _ hc_bytes
  have hdiv := decodeHex_encodeHex _ hiv_bytes
  have hdtg := decodeHex_encodeHex _
    (A.tagOf_bytes k (entropy.take A.ivLen) (xorBytes (utf8Encode plaintext)
      (A.keystream k (entropy.take A.ivLen) (utf8Encode plaintext).length)))
  have hcancel : xorBytes (xorBytes (utf8Encode plaintext)
      (A.keystream k (entropy.take A.ivLen) (utf8Encode plaintext).length))
      (A.keystream k (entropy.take A.ivLen) (utf8Encode plaintext).length) =
      utf8Encode plaintext :=
    xorBytes_cancel _ _ hm_bytes (A.keystream_bytes k _ _) (by omega)
  have hud : utf8Decode (xorBytes (xorBytes (utf8Encode plaintext)
      (A.keystream k (entropy.take A.ivLen) (utf8Encode plaintext).length))
      (A.keystream k (entropy.take A.ivLen) (xorBytes (utf8Encode plaintext)
        (A.keystream k (entropy.take A.ivLen) (utf8Encode plaintext).length)).length)) =
      some plaintext := by
    rw [hc_len, hcancel, utf8Decode_utf8Encode plaintext hp]
  refine ⟨⟨encodeHex (xorBytes (utf8Encode plaintext)
      (A.keystream k (entropy.take A.ivLen) (utf8Encode plaintext).length)),
      encodeHex (entropy.take A.ivLen),
      encodeHex (A.tagOf k (entropy.take A.ivLen) (xorBytes (utf8Encode plaintext)
        (A.keystream k (entropy.take A.ivLen) (utf8Encode plaintext).length)))⟩, ?_, ?_⟩
  · simp only [encryptSymmetric, AesGCM.encrypt, hkdec]
    rw [if_neg (by omega)]
  · simp only [decryptSymmetric, AesGCM.decrypt, hdc, hdiv, hdtg, hkdec]
    rw [if_neg (by omega), if_neg (by omega), if_neg (by simp), hud]

/-- Witness for C1: the round trip evaluated at `toyBox`, concrete 32-byte
and 24-byte entropy draws, and the plaintext "hi". -/
theorem C1_asymmetric_roundtrip_witness :
    ∃ r, encryptAsymmetric toyBox (List.replicate 24 2) [104, 105]
        (generateKeyPair toyBox (List.replicate 32 1)).publicKey
        (generateKeyPair toyBox (List.replicate 32 0)).privateKey = .ok r ∧
      decryptAsymmetric toyBox r.ciphertext r.nonce
        (generateKeyPair toyBox (List.replicate 32 0)).publicKey
        (generateKeyPair toyBox (List.replicate 32 1)).privateKey = .ok [104, 105] :=
  C1_asymmetric_roundtrip toyBox (List.replicate 32 0) (List.replicate 32 1)
    (List.replicate 24 2) [104, 105] (by decide) (by decide) (by decide) (by decide)
    (by decide) (by decide) (by decide)

/-- Witness for C2: the round trip evaluated at `toyAead`, a concrete
12-byte IV draw, the plaintext "sec", and the all-zero 64-digit hex key. -/
theorem C2_symmetric_roundtrip_witness :
    ∃ r, encryptSymmetric toyAead (List.replicate 12 3) [115, 101, 99]
        (List.replicate 64 48) = .ok r ∧
      decryptSymmetric toyAead r.ciphertext r.iv r.tag (List.replicate 64 48) =
        .ok [115, 101, 99] :=
  C2_symmetric_roundtrip toyAead (List.replicate 12 3) [115, 101, 99]
    (List.replicate 64 48) (List.replicate 32 0) (by decide) (by decide) (by decide)
    (by decide) (by decide)

/-! ## Characterization lemmas for the encrypt operations -/

theorem secretbox_ok_bytes (P : BoxPrim) {m n k c : List Nat}
    (h : secretbox P m n k = .ok c) : ∀ b ∈ c, b < 256 := by
  unfold secretbox at h
  split at h
  · cases h
  · split at h
    · cases h
    · injection h with h
      subst h
      intro b hb
      rcases List.mem_append.mp hb with h1 | h1
      · exact P.auth_bytes _ _ b h1
      · exact xorBytes_lt _ _ b h1

theorem naclBox_ok_bytes (P : BoxPrim) {m n pk sk c : List Nat}
    (h : naclBox P m n pk sk = .ok c) : ∀ b ∈ c, b < 256 := by
  unfold naclBox at h
  cases hb : boxBefore P pk sk with
  | error e => rw [hb] at h; cases h
  | ok k => rw [hb] at h; exact secretbox_ok_bytes P h

theorem encryptAsymmetric_ok_iff (P : BoxPrim)
    (entropy plaintext publicKey privateKey : List Nat) (r : AsymOut) :
    encryptAsymmetric P entropy plaintext publicKey privateKey = .ok r ↔
    ∃ pk sk c, decodeBase64 publicKey = .ok pk ∧ decodeBase64 privateKey = .ok sk ∧
      naclBox P (utf8Encode plaintext) (entropy.take 24) pk sk = .ok c ∧
      r = ⟨encodeBase64 c, encodeBase64 (entropy.take 24)⟩ := by
  constructor
  · intro hr
    cases hpk : decodeBase64 publicKey with
    | error e =>
      simp only [encryptAsymmetric, hpk] at hr
      exact Except.noConfusion hr
    | ok pk =>
      cases hsk : decodeBase64 privateKey with
      | error e =>
        simp only [encryptAsymmetric, hpk, hsk] at hr
        exact Except.noConfusion hr
      | ok sk =>
        cases hbox : naclBox P (utf8Encode plaintext) (entropy.take 24) pk sk with
        | error e =>
          simp only [encryptAsymmetric, hpk, hsk, hbox] at hr
          exact Except.noConfusion hr
        | ok c =>
          simp only [encryptAsymmetric, hpk, hsk, hbox, Except.ok.injEq] at hr
          exact ⟨pk, sk, c, rfl, rfl, hbox, hr.symm⟩
  · rintro ⟨pk, sk, c, hpk, hsk, hbox, rfl⟩
    simp only [encryptAsymmetric, hpk, hsk, hbox]

theorem encryptSymmetric_ok_iff (A : AeadPrim)
    (entropy plaintext key : List Nat) (r : SymOut) :
    encryptSymmetric A entropy plaintext key = .ok r ↔
    ∃ k, decodeHex key = some k ∧ k.length = A.keyLen ∧
      r = ⟨encodeHex (xorBytes (utf8Encode plaintext)
             (A.keystream k (entropy.take A.ivLen) (utf8Encode plaintext).length)),
           encodeHex (entropy.take A.ivLen),
           encodeHex (A.tagOf k (entropy.take A.ivLen) (xorBytes (utf8Encode plaintext)
             (A.keystream k (entropy.take A.ivLen) (utf8Encode plaintext).length)))⟩ := by
  constructor
  · intro hr
    cases hk : decodeHex key with
    | none =>
      simp only [encryptSymmetric, AesGCM.encrypt, hk] at hr
      exact Except.noConfusion hr
    | some k =>
      by_cases hlen : k.length = A.keyLen
      · simp only [encryptSymmetric, AesGCM.encrypt, hk,
          if_neg (show ¬(k.length ≠ A.keyLen) by omega), Except.ok.injEq] at hr
        exact ⟨k, rfl, hlen, hr.symm⟩
      · simp only [encryptSymmetric, AesGCM.encrypt, hk,
          if_pos (show k.length ≠ A.keyLen from hlen)] at hr
        exact Except.noConfusion hr
  · rintro ⟨k, hk, hlen, rfl⟩
    simp only [encryptSymmetric, AesGCM.encrypt, hk]
    rw [if_neg (show ¬(k.length ≠ A.keyLen) by omega)]

/-! ## Claim C10 — the symmetric operations are exact pass-throughs -/

/-- C10: `encryptSymmetric` returns precisely the `{ ciphertext, iv, tag }`
fields of `AesGCM.encrypt` unchanged, and `decryptSymmetric` returns
precisely `AesGCM.decrypt`, with no added validation, transformation, or
error mapping. -/
theorem C10_symmetric_passthrough :
    (∀ (A : AeadPrim) (entropy plaintext key : List Nat),
      encryptSymmetric A entropy plaintext key = AesGCM.encrypt A entropy plaintext key) ∧
    (∀ (A : AeadPrim) (c iv tg key : List Nat),
      decryptSymmetric A c iv tg key = AesGCM.decrypt A c iv tg key) := by
  constructor
  · intro A entropy plaintext key
    unfold encryptSymmetric
    cases AesGCM.encrypt A entropy plaintext key with
    | error e => rfl
    | ok obj => rfl
  · intro A c iv tg key
    rfl

/-! ## Claim C9 — operations are pure functions of inputs and draws -/

/-- C9: every operation is a pure function of its explicit inputs and of the
bytes it draws from the random source: two runs whose draws agree on the
consumed prefix (32 bytes for `generateKeyPair`, 24 for
`encryptAsymmetric`, the IV length for `encryptSymmetric`) produce
identical outputs.  The two decrypt operations take no entropy parameter at
all in the embedding, there being no other state. -/
theorem C9_operations_pure :
    (∀ (P : BoxPrim) (e1 e2 : List Nat), e1.take 32 = e2.take 32 →
      generateKeyPair P e1 = generateKeyPair P e2) ∧
    (∀ (P : BoxPrim) (e1 e2 plaintext publicKey privateKey : List Nat),
      e1.take 24 = e2.take 24 →
      encryptAsymmetric P e1 plaintext publicKey privateKey =
        encryptAsymmetric P e2 plaintext publicKey privateKey) ∧
    (∀ (A : AeadPrim) (e1 e2 plaintext key : List Nat),
      e1.take A.ivLen = e2.take A.ivLen →
      encryptSymmetric A e1 plaintext key = encryptSymmetric A e2 plaintext key) := by
  refine ⟨?_, ?_, ?_⟩
  · intro P e1 e2 h
    unfold generateKeyPair
    rw [h]
  · intro P e1 e2 plaintext publicKey privateKey h
    unfold encryptAsymmetric
    rw [h]
  · intro A e1 e2 plaintext key h
    unfold encryptSymmetric AesGCM.encrypt
    rw [h]

/-- Witness for C9: equal consumed prefixes with different unread tails
give equal outputs for the three entropy-consuming operations. -/
theorem C9_operations_pure_witness :
    generateKeyPair toyBox (List.replicate 32 0) =
      generateKeyPair toyBox (List.replicate 32 0 ++ [7]) ∧
    encryptAsymmetric toyBox (List.replicate 24 0) [104] zeroKeyB64 zeroKeyB64 =
      encryptAsymmetric toyBox (List.replicate 24 0 ++ [9]) [104] zeroKeyB64 zeroKeyB64 ∧
    encryptSymmetric toyAead (List.replicate 12 0) [104] zeroKeyHex =
      encryptSymmetric toyAead (List.replicate 12 0 ++ [5]) [104] zeroKeyHex :=
  ⟨C9_operations_pure.1 toyBox _ _ (by decide),
   C9_operations_pure.2.1 toyBox _ _ [104] zeroKeyB64 zeroKeyB64 (by decide),
   C9_operations_pure.2.2 toyAead _ _ [104] zeroKeyHex (by decide)⟩

/-! ## Claim C6 — generated key pairs are base64 of 32 bytes -/

/-- C6: every key pair returned by `generateKeyPair` (from a random draw of
at least 32 bytes) has a `publicKey` and a `privateKey` that are valid
base64 strings, each decoding to exactly 32 bytes. -/
theorem C6_keypair_32_bytes (P : BoxPrim) (entropy : List Nat)
    (hE : ∀ b ∈ entropy, b < 256) (hlen : 32 ≤ entropy.length) :
    (∃ pk, decodeBase64 (generateKeyPair P entropy).publicKey = .ok pk ∧ pk.length = 32) ∧
    (∃ sk, decodeBase64 (generateKeyPair P entropy).privateKey = .ok sk ∧ sk.length = 32) := by
  have hsk_len : (entropy.take 32).length = 32 := by rw [List.length_take]; omega
  have hsk_bytes : ∀ b ∈ entropy.take 32, b < 256 :=
    fun b hb => hE b (List.take_subset _ _ hb)
  refine ⟨⟨P.scalarmultBase (entropy.take 32), ?_, P.smb_len _⟩,
          ⟨entropy.take 32, ?_, hsk_len⟩⟩
  · simp only [generateKeyPair]
    exact decodeBase64_encodeBase64 _ (P.smb_bytes _)
  · simp only [generateKeyPair]
    exact decodeBase64_encodeBase64 _ hsk_bytes

/-- Witness for C6 at `toyBox` and a concrete 32-byte draw. -/
theorem C6_keypair_32_bytes_witness :
    (∃ pk, decodeBase64 (generateKeyPair toyBox (List.replicate 32 5)).publicKey = .ok pk ∧
      pk.length = 32) ∧
    (∃ sk, decodeBase64 (generateKeyPair toyBox (List.replicate 32 5)).privateKey = .ok sk ∧
      sk.length = 32) :=
  C6_keypair_32_bytes toyBox (List.replicate 32 5) (by decide) (by decide)

/-! ## Claim C5 — the nonce is 24 fresh bytes, returned base64-encoded -/

/-- C5: `encryptAsymmetric` draws exactly 24 bytes from the random source
as the nonce (embedded as the 24-byte prefix of the draw `entropy`), and
whenever it returns, the `nonce` field is the base64 encoding of exactly
those 24 bytes (decoding back to them), and the `ciphertext` field is the
base64 encoding of the raw box output (decoding back to it). -/
theorem C5_nonce_24_bytes_base64 (P : BoxPrim)
    (entropy plaintext publicKey privateKey : List Nat)
    (hE : ∀ b ∈ entropy, b < 256) (hlen : 24 ≤ entropy.length) :
    ∀ r, encryptAsymmetric P entropy plaintext publicKey privateKey = .ok r →
      r.nonce = encodeBase64 (entropy.take 24) ∧
      decodeBase64 r.nonce = .ok (entropy.take 24) ∧
      (entropy.take 24).length = 24 ∧
      ∃ cb, (∀ b ∈ cb, b < 256) ∧ r.ciphertext = encodeBase64 cb ∧
        decodeBase64 r.ciphertext = .ok cb := by
  intro r hr
  obtain ⟨pk, sk, c, hpk, hsk, hbox, rfl⟩ :=
    (encryptAsymmetric_ok_iff P entropy plaintext publicKey privateKey r).mp hr
  have hn_bytes : ∀ b ∈ entropy.take 24, b < 256 :=
    fun b hb => hE b (List.take_subset _ _ hb)
  have hc_bytes := naclBox_ok_bytes P hbox
  refine ⟨rfl, decodeBase64_encodeBase64 _ hn_bytes, by rw [List.length_take]; omega,
    c, hc_bytes, rfl, decodeBase64_encodeBase64 _ hc_bytes⟩

/-- Witness for C5 at `toyBox`, an all-zero 24-byte draw, plaintext "h",
and all-zero keys, with the output computed concretely as `c5Out`. -/
theorem C5_nonce_24_bytes_base64_witness :
    c5Out.nonce = encodeBase64 ((List.replicate 24 0).take 24) ∧
    decodeBase64 c5Out.nonce = .ok ((List.replicate 24 0).take 24) ∧
    ((List.replicate 24 0).take 24).length = 24 ∧
    ∃ cb, (∀ b ∈ cb, b < 256) ∧ c5Out.ciphertext = encodeBase64 cb ∧
      decodeBase64 c5Out.ciphertext = .ok cb :=
  C5_nonce_24_bytes_base64 toyBox (List.replicate 24 0) [104] zeroKeyB64 zeroKeyB64
    (by decide) (by decide) c5Out (by decide)

/-! ## Claim C3 — authentication failure -/

/-- C3 (amended): for every call to `decryptAsymmetric` in which the box
does not open (`nacl.box.open` returns `null`: wrong keys, tampered
ciphertext, wrong nonce, or truncated input), the operation fails by
throwing — but the thrown error is the `TypeError` raised when the `null`
result reaches `util.encodeUTF8`, not a typed `AuthenticationError`, which
does not exist in the code.  Altered plaintext is never returned. -/
theorem C3_auth_failure_throws (P : BoxPrim)
    (ciphertext nonce publicKey privateKey c n pk sk : List Nat)
    (hc : decodeBase64 ciphertext = .ok c) (hn : decodeBase64 nonce = .ok n)
    (hpk : decodeBase64 publicKey = .ok pk) (hsk : decodeBase64 privateKey = .ok sk)
    (hopen : naclBoxOpen P c n pk sk = .ok none) :
    decryptAsymmetric P ciphertext nonce publicKey privateKey =
      .error (.jsTypeError "cannot read length of null") := by
  simp only [decryptAsymmetric, hc, hn, hpk, hsk, hopen]

/-- Witness for C3's amended theorem: the empty ciphertext (valid base64 of
zero bytes, shorter than an authentication tag) with all-zero keys and
nonce under `toyBox`. -/
theorem C3_auth_failure_throws_witness :
    decryptAsymmetric toyBox [] (encodeBase64 (List.replicate 24 0)) zeroKeyB64 zeroKeyB64 =
      .error (.jsTypeError "cannot read length of null") :=
  C3_auth_failure_throws toyBox [] (encodeBase64 (List.replicate 24 0)) zeroKeyB64 zeroKeyB64
    [] (List.replicate 24 0) (List.replicate 32 0) (List.replicate 32 0)
    (by decide) (by decide) (by decide) (by decide) (by decide)

/-- Counterexample to C3 as stated: at a concrete input on which the box
does not open (truncated ciphertext), `decryptAsymmetric` fails with the
`TypeError` from dereferencing `null`, not with an `AuthenticationError`. -/
theorem C3_counterexample :
    naclBoxOpen toyBox [] (List.replicate 24 0) (List.replicate 32 0) (List.replicate 32 0) =
      .ok none ∧
    decryptAsymmetric toyBox [] (encodeBase64 (List.replicate 24 0)) zeroKeyB64 zeroKeyB64 =
      .error (.jsTypeError "cannot read length of null") ∧
    decryptAsymmetric toyBox [] (encodeBase64 (List.replicate 24 0)) zeroKeyB64 zeroKeyB64 ≠
      .error .authenticationError :=
  ⟨by decide, by decide, by decide⟩

theorem decodeBase64_eq_ok {s bs : List Nat} :
    decodeBase64 s = .ok bs ↔ decodeB64Core s = some bs := by
  unfold decodeBase64
  cases h : decodeB64Core s <;> simp

/-! ## Claim C4 — malformed or wrongly-sized key and nonce arguments -/

/-- C4 (amended): a key (or nonce) argument that is not valid base64, or
whose decoded length is wrong, makes `encryptAsymmetric` /
`decryptAsymmetric` fail by throwing the underlying libraries' untyped
errors — tweetnacl-util's `TypeError('invalid encoding')` for malformed
base64 and tweetnacl's `Error('bad public key size')` /
`Error('bad secret key size')` / `Error('bad nonce size')` for wrong
decoded lengths — never a silent wrong result; no typed `KeyFormatError`
or `EncodingError` exists in the code. -/
theorem C4_malformed_inputs_throw (P : BoxPrim)
    (entropy plaintext publicKey privateKey ciphertext nonce : List Nat) :
    (decodeB64Core publicKey = none →
      encryptAsymmetric P entropy plaintext publicKey privateKey =
        .error (.jsTypeError "invalid encoding")) ∧
    (∀ pk, decodeBase64 publicKey = .ok pk → decodeB64Core privateKey = none →
      encryptAsymmetric P entropy plaintext publicKey privateKey =
        .error (.jsTypeError "invalid encoding")) ∧
    (∀ pk sk, decodeBase64 publicKey = .ok pk → decodeBase64 privateKey = .ok sk →
      pk.length ≠ 32 →
      encryptAsymmetric P entropy plaintext publicKey privateKey =
        .error (.jsError "bad public key size")) ∧
    (∀ pk sk, decodeBase64 publicKey = .ok pk → decodeBase64 privateKey = .ok sk →
      pk.length = 32 → sk.length ≠ 32 →
      encryptAsymmetric P entropy plaintext publicKey privateKey =
        .error (.jsError "bad secret key size")) ∧
    (∀ c, decodeBase64 ciphertext = .ok c → decodeB64Core nonce = none →
      decryptAsymmetric P ciphertext nonce publicKey privateKey =
        .error (.jsTypeError "invalid encoding")) ∧
    (∀ c n, decodeBase64 ciphertext = .ok c → decodeBase64 nonce = .ok n →
      decodeB64Core publicKey = none →
      decryptAsymmetric P ciphertext nonce publicKey privateKey =
        .error (.jsTypeError "invalid encoding")) ∧
    (∀ c n pk, decodeBase64 ciphertext = .ok c → decodeBase64 nonce = .ok n →
      decodeBase64 publicKey = .ok pk → decodeB64Core privateKey = none →
      decryptAsymmetric P ciphertext nonce publicKey privateKey =
        .error (.jsTypeError "invalid encoding")) ∧
    (∀ c n pk sk, decodeBase64 ciphertext = .ok c → decodeBase64 nonce = .ok n →
      decodeBase64 publicKey = .ok pk → decodeBase64 privateKey = .ok sk →
      pk.length ≠ 32 →
      decryptAsymmetric P ciphertext nonce publicKey privateKey =
        .error (.jsError "bad public key size")) ∧
    (∀ c n pk sk, decodeBase64 ciphertext = .ok c → decodeBase64 nonce = .ok n →
      decodeBase64 publicKey = .ok pk → decodeBase64 privateKey = .ok sk →
      pk.length = 32 → sk.length ≠ 32 →
      decryptAsymmetric P ciphertext nonce publicKey privateKey =
        .error (.jsError "bad secret key size")) ∧
    (∀ c n pk sk, decodeBase64 ciphertext = .ok c → decodeBase64 nonce = .ok n →
      decodeBase64 publicKey = .ok pk → decodeBase64 privateKey = .ok sk →
      pk.length = 32 → sk.length = 32 → n.length ≠ 24 →
      decryptAsymmetric P ciphertext nonce publicKey privateKey =
        .error (.jsError "bad nonce size")) := by
  refine ⟨?_, ?_, ?_, ?_, ?_, ?_, ?_, ?_, ?_, ?_⟩
  · intro h
    simp only [encryptAsymmetric, decodeBase64, h]
  · intro pk hpk h
    simp only [encryptAsymmetric, decodeBase64, decodeBase64_eq_ok.mp hpk, h]
  · intro pk sk hpk hsk h
    simp only [encryptAsymmetric, hpk, hsk, naclBox, boxBefore, if_pos h]
  · intro pk sk hpk hsk hpk32 h
    simp only [encryptAsymmetric, hpk, hsk, naclBox, boxBefore,
      if_neg (show ¬(pk.length ≠ 32) by omega), if_pos h]
  · intro c hc h
    simp only [decryptAsymmetric, decodeBase64, decodeBase64_eq_ok.mp hc, h]
  · intro c n hc hn h
    simp only [decryptAsymmetric, decodeBase64, decodeBase64_eq_ok.mp hc,
      decodeBase64_eq_ok.mp hn, h]
  · intro c n pk hc hn hpk h
    simp only [decryptAsymmetric, decodeBase64, decodeBase64_eq_ok.mp hc,
      decodeBase64_eq_ok.mp hn, decodeBase64_eq_ok.mp hpk, h]
  · intro c n pk sk hc hn hpk hsk h
    simp only [decryptAsymmetric, hc, hn, hpk, hsk, naclBoxOpen, boxBefore, if_pos h]
  · intro c n pk sk hc hn hpk hsk hpk32 h
    simp only [decryptAsymmetric, hc, hn, hpk, hsk, naclBoxOpen, boxBefore,
      if_neg (show ¬(pk.length ≠ 32) by omega), if_pos h]
  · intro c n pk sk hc hn hpk hsk hpk32 hsk32 h
    simp only [decryptAsymmetric, hc, hn, hpk, hsk, naclBoxOpen, boxBefore,
      if_neg (show ¬(pk.length ≠ 32) by omega), if_neg (show ¬(sk.length ≠ 32) by omega),
      secretboxOpen, if_neg (show ¬((P.beforenm pk sk).length ≠ 32) by
        have := P.beforenm_len pk sk; omega), if_pos h]

/-- Witness for C4's amended theorem: each failure mode evaluated at a
concrete input (`!` as malformed base64; base64 of a single zero byte as a
wrongly-sized key or nonce). -/
theorem C4_malformed_inputs_throw_witness :
    encryptAsymmetric toyBox [] [104] [33] zeroKeyB64 =
      .error (.jsTypeError "invalid encoding") ∧
    encryptAsymmetric toyBox [] [104] zeroKeyB64 [33] =
      .error (.jsTypeError "invalid encoding") ∧
    encryptAsymmetric toyBox [] [104] (encodeBase64 [0]) zeroKeyB64 =
      .error (.jsError "bad public key size") ∧
    encryptAsymmetric toyBox [] [104] zeroKeyB64 (encodeBase64 [0]) =
      .error (.jsError "bad secret key size") ∧
    decryptAsymmetric toyBox [] [33] zeroKeyB64 zeroKeyB64 =
      .error (.jsTypeError "invalid encoding") ∧
    decryptAsymmetric toyBox [] (encodeBase64 (List.replicate 24 0)) [33] zeroKeyB64 =
      .error (.jsTypeError "invalid encoding") ∧
    decryptAsymmetric toyBox [] (encodeBase64 (List.replicate 24 0)) zeroKeyB64 [33] =
      .error (.jsTypeError "invalid encoding") ∧
    decryptAsymmetric toyBox [] (encodeBase64 (List.replicate 24 0)) (encodeBase64 [0])
      zeroKeyB64 = .error (.jsError "bad public key size") ∧
    decryptAsymmetric toyBox [] (encodeBase64 (List.replicate 24 0)) zeroKeyB64
      (encodeBase64 [0]) = .error (.jsError "bad secret key size") ∧
    decryptAsymmetric toyBox [] (encodeBase64 [0]) zeroKeyB64 zeroKeyB64 =
      .error (.jsError "bad nonce size") := by
  refine ⟨?_, ?_, ?_, ?_, ?_, ?_, ?_, ?_, ?_, ?_⟩
  · exact (C4_malformed_inputs_throw toyBox [] [104] [33] zeroKeyB64 [] []).1 (by decide)
  · exact (C4_malformed_inputs_throw toyBox [] [104] zeroKeyB64 [33] [] []).2.1
      (List.replicate 32 0) (by decide) (by decide)
  · exact (C4_malformed_inputs_throw toyBox [] [104] (encodeBase64 [0]) zeroKeyB64 [] []).2.2.1
      [0] (List.replicate 32 0) (by decide) (by decide) (by decide)
  · exact (C4_malformed_inputs_throw toyBox [] [104] zeroKeyB64 (encodeBase64 [0]) []
      []).2.2.2.1 (List.replicate 32 0) [0] (by decide) (by decide) (by decide) (by decide)
  · exact (C4_malformed_inputs_throw toyBox [] [] zeroKeyB64 zeroKeyB64 [] [33]).2.2.2.2.1
      [] (by decide) (by decide)
  · exact (C4_malformed_inputs_throw toyBox [] [] [33] zeroKeyB64 []
      (encodeBase64 (List.replicate 24 0))).2.2.2.2.2.1
      [] (List.replicate 24 0) (by decide) (by decide) (by decide)
  · exact (C4_malformed_inputs_throw toyBox [] [] zeroKeyB64 [33] []
      (encodeBase64 (List.replicate 24 0))).2.2.2.2.2.2.1
      [] (List.replicate 24 0) (List.replicate 32 0) (by decide) (by decide) (by decide)
      (by decide)
  · exact (C4_malformed_inputs_throw toyBox [] [] (encodeBase64 [0]) zeroKeyB64 []
      (encodeBase64 (List.replicate 24 0))).2.2.2.2.2.2.2.1
      [] (List.replicate 24 0) [0] (List.replicate 32 0) (by decide) (by decide) (by decide)
      (by decide) (by decide)
  · exact (C4_malformed_inputs_throw toyBox [] [] zeroKeyB64 (encodeBase64 [0]) []
      (encodeBase64 (List.replicate 24 0))).2.2.2.2.2.2.2.2.1
      [] (List.replicate 24 0) (List.replicate 32 0) [0] (by decide) (by decide) (by decide)
      (by decide) (by decide) (by decide)
  · exact (C4_malformed_inputs_throw toyBox [] [] zeroKeyB64 zeroKeyB64 []
      (encodeBase64 [0])).2.2.2.2.2.2.2.2.2
      [] [0] (List.replicate 32 0) (List.replicate 32 0) (by decide) (by decide) (by decide)
      (by decide) (by decide) (by decide) (by decide)

/-- Counterexample to C4 as stated: a malformed base64 key makes
`encryptAsymmetric` fail with the library's `TypeError`, not with any typed
`KeyFormatError` or `EncodingError`. -/
theorem C4_counterexample :
    encryptAsymmetric toyBox (List.replicate 24 0) [104] [33] zeroKeyB64 =
      .error (.jsTypeError "invalid encoding") ∧
    encryptAsymmetric toyBox (List.replicate 24 0) [104] [33] zeroKeyB64 ≠
      .error .keyFormatError ∧
    encryptAsymmetric toyBox (List.replicate 24 0) [104] [33] zeroKeyB64 ≠
      .error .encodingError :=
  ⟨by decide, by decide, by decide⟩

/-! ## Claim C8 — recovered bytes that are not valid UTF-8 -/

/-- C8 (amended): when the sealed box opens successfully but the recovered
bytes are not valid UTF-8, `decryptAsymmetric` fails — but with the
`URIError('URI malformed')` thrown by `decodeURIComponent` inside
`util.encodeUTF8`, not with a typed `EncodingError`, which does not exist
in the code.  A garbage string is never returned. -/
theorem C8_invalid_utf8_throws (P : BoxPrim)
    (ciphertext nonce publicKey privateKey c n pk sk m : List Nat)
    (hc : decodeBase64 ciphertext = .ok c) (hn : decodeBase64 nonce = .ok n)
    (hpk : decodeBase64 publicKey = .ok pk) (hsk : decodeBase64 privateKey = .ok sk)
    (hopen : naclBoxOpen P c n pk sk = .ok (some m)) (hutf : utf8Decode m = none) :
    decryptAsymmetric P ciphertext nonce publicKey privateKey =
      .error (.jsURIError "URI malformed") := by
  simp only [decryptAsymmetric, hc, hn, hpk, hsk, hopen, encodeUTF8, hutf]

/-- Witness for C8's amended theorem: the crafted box `invalidUtf8Box`
opens under `toyBox` (all-zero keys and nonce) to the single byte 255,
which is not valid UTF-8. -/
theorem C8_invalid_utf8_throws_witness :
    decryptAsymmetric toyBox (encodeBase64 invalidUtf8Box)
      (encodeBase64 (List.replicate 24 0)) zeroKeyB64 zeroKeyB64 =
      .error (.jsURIError "URI malformed") :=
  C8_invalid_utf8_throws toyBox (encodeBase64 invalidUtf8Box)
    (encodeBase64 (List.replicate 24 0)) zeroKeyB64 zeroKeyB64
    invalidUtf8Box (List.replicate 24 0) (List.replicate 32 0) (List.replicate 32 0) [255]
    (by decide) (by decide) (by decide) (by decide) (by decide) (by decide)

/-- Counterexample to C8 as stated: at a concrete input whose box opens to
the byte 255, `decryptAsymmetric` fails with a `URIError`, not with an
`EncodingError`. -/
theorem C8_counterexample :
    naclBoxOpen toyBox invalidUtf8Box (List.replicate 24 0) (List.replicate 32 0)
      (List.replicate 32 0) = .ok (some [255]) ∧
    decryptAsymmetric toyBox (encodeBase64 invalidUtf8Box)
      (encodeBase64 (List.replicate 24 0)) zeroKeyB64 zeroKeyB64 =
      .error (.jsURIError "URI malformed") ∧
    decryptAsymmetric toyBox (encodeBase64 invalidUtf8Box)
      (encodeBase64 (List.replicate 24 0)) zeroKeyB64 zeroKeyB64 ≠
      .error .encodingError :=
  ⟨by decide, by decide, by decide⟩

/-! ## Claim C7 — distinct draws and nonce/IV freshness -/

/-- C7 (amended): two calls with identical inputs but distinct draws from
the random source produce different nonces (asymmetric) and different IVs
(symmetric), since the nonce/IV fields are injective encodings of the
draws.  Different ciphertexts are not guaranteed by the code for an
arbitrary cipher kernel: the ciphertext differs exactly when the kernel's
stream and authenticator differ on the two nonces, which for the real
cipher is only probabilistically assured. -/
theorem C7_distinct_draws_distinct_nonce_iv (P : BoxPrim) (A : AeadPrim)
    (e1 e2 plaintext publicKey privateKey skey : List Nat)
    (h1 : ∀ b ∈ e1, b < 256) (h2 : ∀ b ∈ e2, b < 256)
    (hne : e1.take 24 ≠ e2.take 24) (hneiv : e1.take A.ivLen ≠ e2.take A.ivLen) :
    (∀ r1 r2, encryptAsymmetric P e1 plaintext publicKey privateKey = .ok r1 →
      encryptAsymmetric P e2 plaintext publicKey privateKey = .ok r2 →
      r1.nonce ≠ r2.nonce) ∧
    (∀ s1 s2, encryptSymmetric A e1 plaintext skey = .ok s1 →
      encryptSymmetric A e2 plaintext skey = .ok s2 →
      s1.iv ≠ s2.iv) := by
  constructor
  · intro r1 r2 hr1 hr2 heq
    obtain ⟨pk1, sk1, c1, _, _, _, rfl⟩ :=
      (encryptAsymmetric_ok_iff P e1 plaintext publicKey privateKey r1).mp hr1
    obtain ⟨pk2, sk2, c2, _, _, _, rfl⟩ :=
      (encryptAsymmetric_ok_iff P e2 plaintext publicKey privateKey r2).mp hr2
    exact hne (encodeBase64_injOn _ _ (fun b hb => h1 b (List.take_subset _ _ hb))
      (fun b hb => h2 b (List.take_subset _ _ hb)) heq)
  · intro s1 s2 hs1 hs2 heq
    obtain ⟨k1, _, _, rfl⟩ := (encryptSymmetric_ok_iff A e1 plaintext skey s1).mp hs1
    obtain ⟨k2, _, _, rfl⟩ := (encryptSymmetric_ok_iff A e2 plaintext skey s2).mp hs2
    exact hneiv (encodeHex_injOn _ _ (fun b hb => h1 b (List.take_subset _ _ hb))
      (fun b hb => h2 b (List.take_subset _ _ hb)) heq)

/-- Witness for C7's amended theorem: two concrete distinct draws give
different nonce and IV fields, the outputs computed concretely. -/
theorem C7_distinct_draws_distinct_nonce_iv_witness :
    c7Out1.nonce ≠ c7Out2.nonce ∧ c7Sym1.iv ≠ c7Sym2.iv :=
  ⟨(C7_distinct_draws_distinct_nonce_iv toyBox toyAead (1 :: List.replicate 23 0)
      (List.replicate 24 1) [104] zeroKeyB64 zeroKeyB64 zeroKeyHex
      (by decide) (by decide) (by decide) (by decide)).1 c7Out1 c7Out2 (by decide) (by decide),
   (C7_distinct_draws_distinct_nonce_iv toyBox toyAead (1 :: List.replicate 23 0)
      (List.replicate 24 1) [104] zeroKeyB64 zeroKeyB64 zeroKeyHex
      (by decide) (by decide) (by decide) (by decide)).2 c7Sym1 c7Sym2 (by decide) (by decide)⟩

/-- Counterexample to C7 as stated: under `toyBox`, the distinct draws
`1 :: 0²³` and `0 :: 1 :: 0²²` yield different nonces but identical
ciphertexts (the kernel's stream and authenticator see the nonce only
through its byte sum), so "different nonces and different ciphertexts"
fails at this input. -/
theorem C7_counterexample :
    (1 :: List.replicate 23 0 : List Nat) ≠ 0 :: 1 :: List.replicate 22 0 ∧
    Except.map AsymOut.nonce
        (encryptAsymmetric toyBox (1 :: List.replicate 23 0) [104] zeroKeyB64 zeroKeyB64) ≠
      Except.map AsymOut.nonce
        (encryptAsymmetric toyBox (0 :: 1 :: List.replicate 22 0) [104] zeroKeyB64 zeroKeyB64) ∧
    Except.map AsymOut.ciphertext
        (encryptAsymmetric toyBox (1 :: List.replicate 23 0) [104] zeroKeyB64 zeroKeyB64) =
      Except.map AsymOut.ciphertext
        (encryptAsymmetric toyBox (0 :: 1 :: List.replicate 22 0) [104] zeroKeyB64 zeroKeyB64) :=
  ⟨by decide, by decide, by decide⟩
